import Mathlib

/-!
Shallow embedding of the curriculum-catalogue program (`Curriculum.py`,
`Discipline.py`, `DisciplineException.py`) and proofs about its sorting
and query engine.

Python strings are modelled as lists of Unicode code points (`List Char`),
compared lexicographically by code point, exactly as Python compares `str`
values.  Python `int` is modelled as `Int`.  Python tuple comparison is
modelled by the lexicographic product order `×ₗ`.  Raising an exception is
modelled by `Except`.
-/

/-- A Python string: a sequence of Unicode code points. -/
abbrev PyStr := List Char

/-- The ASCII whitespace characters removed by `str.strip()` (Python also
strips other Unicode space characters; the program only ever meets ASCII
whitespace and the Cyrillic letters of its two report-type literals). -/
def pyIsSpace (c : Char) : Bool :=
  c = ' ' || c = '\t' || c = '\n' || c = '\r' || c.toNat = 11 || c.toNat = 12

/-- Python `str.strip()`: drop leading and trailing whitespace. -/
def pyStrip (s : PyStr) : PyStr :=
  ((s.dropWhile pyIsSpace).reverse.dropWhile pyIsSpace).reverse

/-- Python `str.lower()` restricted to the alphabets the program uses:
ASCII letters and the Russian Cyrillic block (А-Я and Ё). -/
def pyLowerChar (c : Char) : Char :=
  if 'A' ≤ c ∧ c ≤ 'Z' then Char.ofNat (c.toNat + 32)
  else if 'А' ≤ c ∧ c ≤ 'Я' then Char.ofNat (c.toNat + 32)
  else if c = 'Ё' then 'ё'
  else c

/-- Python `str.lower()` on a whole string. -/
def pyLower (s : PyStr) : PyStr := s.map pyLowerChar

/-- Python `list.insert(pos, x)` for a non-negative `pos`
(`pos > len` appends at the end, as in Python). -/
def pyInsert (l : List α) (pos : Nat) (x : α) : List α :=
  l.take pos ++ x :: l.drop pos

/-!
## Sort engine (`Curriculum._binary_search_insert_position`,
`Curriculum._binary_insertion_sort`)
-/

/-- The `while left < right` loop of `_binary_search_insert_position`,
run over the list `ks` of keys of the already-sorted list
(`ks.getD mid ek` is `key_func(sorted_list[mid])`; the default is never
reached since `mid < right ≤ len` throughout). -/
def bsLoop [LinearOrder K] (ks : List K) (ek : K) (left right : Nat) : Nat :=
  if left < right then
    let mid := (left + right) / 2
    if ks.getD mid ek < ek then
      bsLoop ks ek (mid + 1) right
    else
      bsLoop ks ek left mid
  else
    left
termination_by right - left
decreasing_by
  · omega
  · omega

/-- `Curriculum._binary_search_insert_position(sorted_list, element, key_func)`:
binary search with `left = 0`, `right = len(sorted_list)`. -/
def binary_search_insert_position [LinearOrder K]
    (sorted_list : List α) (element : α) (key_func : α → K) : Nat :=
  bsLoop (sorted_list.map key_func) (key_func element) 0 sorted_list.length

/-- `Curriculum._binary_insertion_sort(items, key_func)`: start from an empty
result list and insert each element of `items`, in order, at the position
found by the binary search. -/
def binary_insertion_sort [LinearOrder K]
    (items : List α) (key_func : α → K) : List α :=
  items.foldl
    (fun sorted_list element =>
      pyInsert sorted_list
        (binary_search_insert_position sorted_list element key_func) element)
    []

/-!
## Data model (`Discipline.py`, `DisciplineException.py`)
-/

/-- The validation errors of `DisciplineException.py` that record
construction can raise (messages are irrelevant to the claims and omitted;
the bare `DisciplineException` raised for an empty name/department is
`emptyName`/`emptyDepartment`). -/
inductive DisciplineError where
  | emptyName : DisciplineError
  | emptyDepartment : DisciplineError
  | invalidSemester (semester : Int) : DisciplineError
  | invalidDuration (duration : Int) : DisciplineError
  | invalidHours (hours : Int) : DisciplineError
  | invalidReportType (report_type : PyStr) : DisciplineError
deriving DecidableEq

/-- A validated course record (`class Discipline`).  `semester`, `duration`
and `hours` are Python ints. -/
structure Discipline where
  name : PyStr
  semester : Int
  duration : Int
  hours : Int
  report_type : PyStr
  department : PyStr
deriving DecidableEq, Repr

/-- `Discipline.VALID_REPORT_TYPES = ('зачёт', 'экзамен')`. -/
def VALID_REPORT_TYPES : List PyStr := ["зачёт".data, "экзамен".data]

/-- `Discipline.MIN_SEMESTER`. -/
def MIN_SEMESTER : Int := 1

/-- `Discipline.MAX_SEMESTER`. -/
def MAX_SEMESTER : Int := 8

/-- `Discipline.MIN_HOURS`. -/
def MIN_HOURS : Int := 36

/-- `Discipline.MAX_HOURS`. -/
def MAX_HOURS : Int := 216

/-- `Discipline._validate_name`. -/
def validate_name (name : PyStr) : Except DisciplineError PyStr :=
  let name := pyStrip name
  if name = [] then .error .emptyName else .ok name

/-- `Discipline._validate_department`. -/
def validate_department (department : PyStr) : Except DisciplineError PyStr :=
  let department := pyStrip department
  if department = [] then .error .emptyDepartment else .ok department

/-- `Discipline._validate_semester` after the `int()` conversion (the raw
value is modelled as already an integer; for non-numeric raw input `int()`
itself fails and the same typed error is raised, so no record is created
either way). -/
def validate_semester (semester : Int) : Except DisciplineError Int :=
  if MIN_SEMESTER ≤ semester ∧ semester ≤ MAX_SEMESTER then .ok semester
  else .error (.invalidSemester semester)

/-- `Discipline._validate_duration`: bounded by
`max_duration = MAX_SEMESTER - semester + 1`. -/
def validate_duration (duration semester : Int) : Except DisciplineError Int :=
  let max_duration := MAX_SEMESTER - semester + 1
  if 1 ≤ duration ∧ duration ≤ max_duration then .ok duration
  else .error (.invalidDuration duration)

/-- `Discipline._validate_hours`. -/
def validate_hours (hours : Int) : Except DisciplineError Int :=
  if MIN_HOURS ≤ hours ∧ hours ≤ MAX_HOURS then .ok hours
  else .error (.invalidHours hours)

/-- `Discipline._validate_report_type`: strip, lower, then membership in
`VALID_REPORT_TYPES`. -/
def validate_report_type (report_type : PyStr) : Except DisciplineError PyStr :=
  let report_type := pyLower (pyStrip report_type)
  if report_type ∈ VALID_REPORT_TYPES then .ok report_type
  else .error (.invalidReportType report_type)

/-- `Discipline.__init__`: validate each field in source order; the first
failing validator raises. -/
def discipline_init (name : PyStr) (semester duration hours : Int)
    (report_type department : PyStr) : Except DisciplineError Discipline := do
  let name ← validate_name name
  let semester ← validate_semester semester
  let duration ← validate_duration duration semester
  let hours ← validate_hours hours
  let report_type ← validate_report_type report_type
  let department ← validate_department department
  return { name := name, semester := semester, duration := duration,
           hours := hours, report_type := report_type,
           department := department }

/-- A raw record as it reaches `Discipline.from_dict` with all six required
keys present (a dictionary missing a key raises before construction and so
contributes no record to the catalogue). -/
structure RawRecord where
  name : PyStr
  semester : Int
  duration : Int
  hours : Int
  report_type : PyStr
  department : PyStr

/-- `Discipline.from_dict` on a complete dictionary. -/
def discipline_from_dict (data : RawRecord) : Except DisciplineError Discipline :=
  discipline_init data.name data.semester data.duration data.hours
    data.report_type data.department

/-- The per-record loop of `Curriculum.load_from_file`: successfully
constructed records are appended to the catalogue, failures are collected
as warnings. -/
def load_records (data : List RawRecord) :
    List Discipline × List DisciplineError :=
  data.foldl
    (fun acc item =>
      match discipline_from_dict item with
      | .ok d => (acc.1 ++ [d], acc.2)
      | .error e => (acc.1, acc.2 ++ [e]))
    ([], [])

/-!
## Query/report engine (`class Curriculum`)

Each report method reads `self.disciplines` and never assigns to it; the
state-passing translation returns the (unchanged) catalogue next to the
result.  Console warnings are `print` side effects, not part of the
returned value, and are not modelled.
-/

/-- `EmptyDatabaseError`, the only exception the report methods raise. -/
inductive CurriculumError where
  | emptyDatabase : CurriculumError
deriving DecidableEq

/-- The catalogue container (`class Curriculum`). -/
structure Curriculum where
  disciplines : List Discipline
deriving DecidableEq

/-- Sort key of report 1 (`get_full_list_sorted`):
`(d.semester, d.department, -d.hours)` under Python tuple comparison. -/
def full_list_key (d : Discipline) : Int ×ₗ (PyStr ×ₗ Int) :=
  toLex (d.semester, toLex (d.department, -d.hours))

/-- Sort key of report 2 (`get_by_report_type`):
`(d.duration, -d.hours)`. -/
def report_type_key (d : Discipline) : Int ×ₗ Int :=
  toLex (d.duration, -d.hours)

/-- Sort key of report 3 (`get_by_hours_range`):
`(d.department, -d.hours)`. -/
def hours_range_key (d : Discipline) : PyStr ×ₗ Int :=
  toLex (d.department, -d.hours)

/-- `Curriculum.get_full_list_sorted`: check non-empty, then sort the whole
catalogue.  Returns `(self after the call, result or exception)`. -/
def get_full_list_sorted (self : Curriculum) :
    Curriculum × Except CurriculumError (List Discipline) :=
  if self.disciplines = [] then (self, .error .emptyDatabase)
  else (self, .ok (binary_insertion_sort self.disciplines full_list_key))

/-- `Curriculum.get_by_report_type`: check non-empty, normalise the
requested value (strip + lower), reject unknown values with an empty
result, filter, return `[]` on an empty filter, otherwise sort. -/
def get_by_report_type (self : Curriculum) (report_type : PyStr) :
    Curriculum × Except CurriculumError (List Discipline) :=
  if self.disciplines = [] then (self, .error .emptyDatabase)
  else
    let report_type := pyLower (pyStrip report_type)
    if report_type ∉ VALID_REPORT_TYPES then (self, .ok [])
    else
      let filtered := self.disciplines.filter
        (fun d => d.report_type = report_type)
      if filtered = [] then (self, .ok [])
      else (self, .ok (binary_insertion_sort filtered report_type_key))

/-- `Curriculum.get_by_hours_range`: check non-empty, swap the bounds when
`min_hours > max_hours`, filter by `min_hours <= d.hours <= max_hours`,
return `[]` on an empty filter, otherwise sort. -/
def get_by_hours_range (self : Curriculum) (min_hours max_hours : Int) :
    Curriculum × Except CurriculumError (List Discipline) :=
  if self.disciplines = [] then (self, .error .emptyDatabase)
  else
    let bounds := if min_hours > max_hours then (max_hours, min_hours)
                  else (min_hours, max_hours)
    let filtered := self.disciplines.filter
      (fun d => bounds.1 ≤ d.hours ∧ d.hours ≤ bounds.2)
    if filtered = [] then (self, .ok [])
    else (self, .ok (binary_insertion_sort filtered hours_range_key))

/-- `sorted(set(xs))` for Python strings: the distinct values in ascending
order. -/
def pySortedSet (l : List PyStr) : List PyStr :=
  l.dedup.mergeSort

/-- `Curriculum.get_disciplines_count`. -/
def get_disciplines_count (self : Curriculum) : Nat :=
  self.disciplines.length

/-- `Curriculum.get_unique_departments`. -/
def get_unique_departments (self : Curriculum) : List PyStr :=
  pySortedSet (self.disciplines.map (fun d => d.department))

/-- `Curriculum.get_unique_report_types`. -/
def get_unique_report_types (self : Curriculum) : List PyStr :=
  pySortedSet (self.disciplines.map (fun d => d.report_type))

/-- `Curriculum.get_all_discipline_names`: `sorted(...)` without `set`. -/
def get_all_discipline_names (self : Curriculum) : List PyStr :=
  (self.disciplines.map (fun d => d.name)).mergeSort

/-!
## Lemmas about the binary search loop
-/

/-- On a list that is pairwise `≤`-ordered, `getD` is monotone in the index
(within bounds). -/
theorem getD_mono_of_pairwise [LinearOrder K] {ks : List K} (d : K)
    (hs : ks.Pairwise (· ≤ ·)) {i j : Nat} (hij : i ≤ j) (hj : j < ks.length) :
    ks.getD i d ≤ ks.getD j d := by
  have hi : i < ks.length := lt_of_le_of_lt hij hj
  rw [List.getD_eq_getElem ks d hi, List.getD_eq_getElem ks d hj]
  rcases lt_or_eq_of_le hij with h | h
  · exact List.pairwise_iff_getElem.mp hs i j hi hj h
  · subst h
    exact le_refl _

/-- Invariant-based specification of the `while` loop of
`_binary_search_insert_position`: on a sorted key list it returns a
position `p` with every key strictly below `ek` before `p` and no key
strictly below `ek` at or after `p`. -/
theorem bsLoop_spec [LinearOrder K] {ks : List K} {ek : K}
    (hs : ks.Pairwise (· ≤ ·)) (left right : Nat) :
    left ≤ right → right ≤ ks.length →
    (∀ i, i < left → ks.getD i ek < ek) →
    (∀ i, right ≤ i → i < ks.length → ¬ ks.getD i ek < ek) →
    left ≤ bsLoop ks ek left right ∧ bsLoop ks ek left right ≤ right ∧
    (∀ i, i < bsLoop ks ek left right → ks.getD i ek < ek) ∧
    (∀ i, bsLoop ks ek left right ≤ i → i < ks.length →
      ¬ ks.getD i ek < ek) := by
  induction left, right using bsLoop.induct ks ek with
  | case1 left right h mid hk ih =>
    intro hlr hr hl hrt
    have hmid : mid < right := by omega
    have heq : bsLoop ks ek left right = bsLoop ks ek (mid + 1) right := by
      rw [bsLoop]
      simp only [if_pos h, if_pos hk]
    have hl' : ∀ i, i < mid + 1 → ks.getD i ek < ek := by
      intro i hi
      exact lt_of_le_of_lt
        (getD_mono_of_pairwise ek hs (by omega) (by omega)) hk
    obtain ⟨p1, p2, p3, p4⟩ := ih (by omega) hr hl' hrt
    rw [heq]
    exact ⟨by omega, p2, p3, p4⟩
  | case2 left right h mid hk ih =>
    intro hlr hr hl hrt
    have hmid : mid < right := by omega
    have heq : bsLoop ks ek left right = bsLoop ks ek left mid := by
      rw [bsLoop]
      simp only [if_pos h, if_neg hk]
    have hrt' : ∀ i, mid ≤ i → i < ks.length → ¬ ks.getD i ek < ek := by
      intro i hmi hilen hcon
      exact hk (lt_of_le_of_lt
        (getD_mono_of_pairwise ek hs hmi hilen) hcon)
    obtain ⟨p1, p2, p3, p4⟩ := ih (by omega) (by omega) hl hrt'
    rw [heq]
    exact ⟨p1, by omega, p3, p4⟩
  | case3 left right h =>
    intro hlr hr hl hrt
    have heq : bsLoop ks ek left right = left := by
      rw [bsLoop]
      simp only [if_neg h]
    rw [heq]
    exact ⟨le_refl _, hlr, hl, fun i hpi hilen => hrt i (by omega) hilen⟩

/-- Specification of `_binary_search_insert_position` on a list whose keys
are pairwise non-decreasing: the returned position splits the list into a
prefix of keys strictly below the element's key and a suffix of keys at or
above it. -/
theorem insert_position_spec [LinearOrder K] (l : List α) (e : α) (f : α → K)
    (hs : l.Pairwise (fun a b => f a ≤ f b)) :
    binary_search_insert_position l e f ≤ l.length ∧
    (∀ x ∈ l.take (binary_search_insert_position l e f), f x < f e) ∧
    (∀ y ∈ l.drop (binary_search_insert_position l e f), f e ≤ f y) := by
  have hs' : (l.map f).Pairwise (· ≤ ·) := by
    rw [List.pairwise_map]
    exact hs
  have hlen : l.length ≤ (l.map f).length := by
    rw [List.length_map]
  obtain ⟨h0, hle, hlt, hge⟩ :=
    bsLoop_spec hs' 0 l.length (Nat.zero_le _) hlen
      (fun i hi => absurd hi (Nat.not_lt_zero i))
      (fun i hi hilen => absurd hilen (by rw [List.length_map]; omega))
  simp only [binary_search_insert_position]
  set p := bsLoop (l.map f) (f e) 0 l.length with hp
  refine ⟨hle, ?_, ?_⟩
  · intro x hx
    obtain ⟨i, hi, hix⟩ := List.mem_iff_getElem.mp hx
    have hil : i < l.length := by
      have := hi
      rw [List.length_take] at this
      omega
    have hip : i < p := by
      have := hi
      rw [List.length_take] at this
      omega
    have := hlt i hip
    rw [List.getD_eq_getElem (l.map f) (f e) (by rw [List.length_map]; exact hil),
      List.getElem_map] at this
    rw [← hix, List.getElem_take]
    exact this
  · intro y hy
    obtain ⟨j, hj, hjy⟩ := List.mem_iff_getElem.mp hy
    have hjl : p + j < l.length := by
      have := hj
      rw [List.length_drop] at this
      omega
    have := hge (p + j) (Nat.le_add_right p j)
      (by rw [List.length_map]; exact hjl)
    rw [List.getD_eq_getElem (l.map f) (f e) (by rw [List.length_map]; exact hjl),
      List.getElem_map] at this
    rw [← hjy, List.getElem_drop]
    exact not_lt.mp this

/-- Inserting an element at the position found by the binary search keeps
the list pairwise non-decreasing by key. -/
theorem pairwise_pyInsert [LinearOrder K] {l : List α} {f : α → K} (e : α)
    (hs : l.Pairwise (fun a b => f a ≤ f b)) :
    (pyInsert l (binary_search_insert_position l e f) e).Pairwise
      (fun a b => f a ≤ f b) := by
  obtain ⟨hp, htake, hdrop⟩ := insert_position_spec l e f hs
  unfold pyInsert
  rw [List.pairwise_append]
  refine ⟨hs.sublist (List.take_sublist _ l), ?_, ?_⟩
  · rw [List.pairwise_cons]
    exact ⟨hdrop, hs.sublist (List.drop_sublist _ l)⟩
  · intro x hx y hy
    rcases List.mem_cons.mp hy with rfl | hy
    · exact le_of_lt (htake x hx)
    · exact le_trans (le_of_lt (htake x hx)) (hdrop y hy)

/-- `pyInsert` produces a permutation of consing the element. -/
theorem perm_pyInsert (l : List α) (pos : Nat) (x : α) :
    List.Perm (pyInsert l pos x) (x :: l) := by
  unfold pyInsert
  have h1 : List.Perm (l.take pos ++ x :: l.drop pos)
      (x :: (l.take pos ++ l.drop pos)) := List.perm_middle
  rwa [List.take_append_drop] at h1

/-- The insertion loop of `_binary_insertion_sort` permutes the accumulator
followed by the remaining input. -/
theorem sort_loop_perm [LinearOrder K] (f : α → K) (items : List α) :
    ∀ acc : List α,
      List.Perm
        (items.foldl
          (fun sorted_list element =>
            pyInsert sorted_list
              (binary_search_insert_position sorted_list element f) element)
          acc) (acc ++ items) := by
  induction items with
  | nil => intro acc; simp
  | cons x xs ih =>
    intro acc
    simp only [List.foldl_cons]
    exact ((ih _).trans
      (((perm_pyInsert acc _ x).append_right xs).trans List.perm_middle.symm))

/-- `_binary_insertion_sort` returns a permutation of its input. -/
theorem binary_insertion_sort_perm [LinearOrder K]
    (items : List α) (f : α → K) :
    List.Perm (binary_insertion_sort items f) items := by
  simpa using sort_loop_perm f items []

/-- The insertion loop keeps the accumulator pairwise non-decreasing. -/
theorem sort_loop_pairwise [LinearOrder K] (f : α → K) (items : List α) :
    ∀ acc : List α, acc.Pairwise (fun a b => f a ≤ f b) →
      (items.foldl
        (fun sorted_list element =>
          pyInsert sorted_list
            (binary_search_insert_position sorted_list element f) element)
        acc).Pairwise (fun a b => f a ≤ f b) := by
  induction items with
  | nil => intro acc hacc; simpa using hacc
  | cons x xs ih =>
    intro acc hacc
    simp only [List.foldl_cons]
    exact ih _ (pairwise_pyInsert x hacc)

/-- `_binary_insertion_sort` returns a list pairwise non-decreasing by key. -/
theorem binary_insertion_sort_pairwise [LinearOrder K]
    (items : List α) (f : α → K) :
    (binary_insertion_sort items f).Pairwise (fun a b => f a ≤ f b) :=
  sort_loop_pairwise f items [] List.Pairwise.nil

/-- `_binary_insertion_sort` preserves length. -/
theorem binary_insertion_sort_length [LinearOrder K]
    (items : List α) (f : α → K) :
    (binary_insertion_sort items f).length = items.length :=
  (binary_insertion_sort_perm items f).length_eq

/-- When every present key is strictly below the new element's key, the
binary search returns the final position. -/
theorem insert_position_of_forall_lt [LinearOrder K] {l : List α} {f : α → K}
    {e : α} (hs : l.Pairwise (fun a b => f a ≤ f b))
    (h : ∀ x ∈ l, f x < f e) :
    binary_search_insert_position l e f = l.length := by
  obtain ⟨hle, htake, hdrop⟩ := insert_position_spec l e f hs
  by_contra hne
  have hlt : binary_search_insert_position l e f < l.length :=
    lt_of_le_of_ne hle hne
  have hdl : 0 < (l.drop (binary_search_insert_position l e f)).length := by
    rw [List.length_drop]
    omega
  have hy := List.getElem_mem hdl
  have h1 := hdrop _ hy
  have h2 := h _ (List.mem_of_mem_drop hy)
  exact absurd h2 (not_lt.mpr h1)

/-- When every present key equals the new element's key, the binary search
returns position `0`: the element is inserted before all its equals. -/
theorem insert_position_of_forall_eq [LinearOrder K] {l : List α} {f : α → K}
    {e : α} (heq : ∀ x ∈ l, f x = f e) :
    binary_search_insert_position l e f = 0 := by
  have hs : l.Pairwise (fun a b => f a ≤ f b) :=
    List.pairwise_of_forall_mem_list
      (fun a ha b hb => le_of_eq (by rw [heq a ha, heq b hb]))
  obtain ⟨hle, htake, hdrop⟩ := insert_position_spec l e f hs
  by_contra hne
  have hpos : 0 < binary_search_insert_position l e f :=
    Nat.pos_of_ne_zero hne
  have hdl : 0 < (l.take (binary_search_insert_position l e f)).length := by
    rw [List.length_take]
    omega
  have hx := List.getElem_mem hdl
  have h1 := htake _ hx
  have h2 := heq _ (List.mem_of_mem_take hx)
  exact absurd h1 (by rw [h2]; exact lt_irrefl _)

/-- The insertion loop maps an input whose keys are strictly increasing
across `acc ++ items` to plain appending. -/
theorem sort_loop_of_strict [LinearOrder K] (f : α → K) (items : List α) :
    ∀ acc : List α, (acc ++ items).Pairwise (fun a b => f a < f b) →
      items.foldl
        (fun sorted_list element =>
          pyInsert sorted_list
            (binary_search_insert_position sorted_list element f) element)
        acc = acc ++ items := by
  induction items with
  | nil => intro acc _; simp
  | cons x xs ih =>
    intro acc h
    simp only [List.foldl_cons]
    have hparts := List.pairwise_append.mp h
    have halllt : ∀ a ∈ acc, f a < f x :=
      fun a ha => hparts.2.2 a ha x (List.mem_cons_self x xs)
    have hsacc : acc.Pairwise (fun a b => f a ≤ f b) :=
      hparts.1.imp (fun hab => le_of_lt hab)
    have hstep : pyInsert acc (binary_search_insert_position acc x f) x =
        acc ++ [x] := by
      rw [insert_position_of_forall_lt hsacc halllt]
      unfold pyInsert
      rw [List.take_length, List.drop_length]
    rw [hstep]
    have h' : ((acc ++ [x]) ++ xs).Pairwise (fun a b => f a < f b) := by
      rw [List.append_assoc]
      simpa using h
    rw [ih (acc ++ [x]) h', List.append_assoc]
    rfl

/-- On an input whose keys are strictly increasing, `_binary_insertion_sort`
is the identity. -/
theorem binary_insertion_sort_of_strict [LinearOrder K]
    (items : List α) (f : α → K)
    (h : items.Pairwise (fun a b => f a < f b)) :
    binary_insertion_sort items f = items := by
  simpa using sort_loop_of_strict f items [] (by simpa using h)

/-- The insertion loop reverses an input all of whose keys are equal. -/
theorem sort_loop_of_const [LinearOrder K] (f : α → K) (k : K)
    (items : List α) :
    ∀ acc : List α, (∀ x ∈ items, f x = k) → (∀ x ∈ acc, f x = k) →
      items.foldl
        (fun sorted_list element =>
          pyInsert sorted_list
            (binary_search_insert_position sorted_list element f) element)
        acc = items.reverse ++ acc := by
  induction items with
  | nil => intro acc _ _; simp
  | cons x xs ih =>
    intro acc hitems hacc
    simp only [List.foldl_cons]
    have hx : f x = k := hitems x (List.mem_cons_self x xs)
    have heq : ∀ a ∈ acc, f a = f x := fun a ha => by rw [hacc a ha, hx]
    rw [insert_position_of_forall_eq heq]
    have hstep : pyInsert acc 0 x = x :: acc := rfl
    rw [hstep, ih (x :: acc) (fun y hy => hitems y (List.mem_cons_of_mem x hy))
      (fun y hy => by
        rcases List.mem_cons.mp hy with rfl | hy
        · exact hx
        · exact hacc y hy),
      List.reverse_cons, List.append_assoc]
    rfl

/-- On an input all of whose keys are equal, `_binary_insertion_sort`
reverses the input: equal-key elements come out in reversed relative
order. -/
theorem binary_insertion_sort_of_const_key [LinearOrder K]
    (items : List α) (f : α → K) (k : K) (h : ∀ x ∈ items, f x = k) :
    binary_insertion_sort items f = items.reverse := by
  simpa using sort_loop_of_const f k items [] h (by intro x hx; cases hx)

/-!
## Claims
-/

unseal bsLoop in
/-- C1 counterexample: the spec's stability scenario fails on the code.
Sorting the two-element list `[(k=1,"a"), (k=1,"b")]` by `k` yields
`["b","a"]`, not `["a","b"]` as the claim states: the binary search returns
the first position whose key is not less than the element's key, so the
element is inserted BEFORE earlier equal-key elements. -/
theorem C1_counterexample :
    binary_insertion_sort [((1 : Nat), "a".data), (1, "b".data)]
        (fun p => p.1) = [(1, "b".data), (1, "a".data)] ∧
    binary_insertion_sort [((1 : Nat), "a".data), (1, "b".data)]
        (fun p => p.1) ≠ [(1, "a".data), (1, "b".data)] := by
  constructor
  · rfl
  · decide

unseal bsLoop in
/-- C1 amended: the sort engine is anti-stable — on any input all of whose
keys are equal the output is the reversed input, so equal-key elements
appear in reversed relative order; in particular sorting
`[(k=1,"a"), (k=1,"b")]` by `k` yields `["b","a"]`. -/
theorem C1_theorem :
    (∀ (α K : Type) [_inst : LinearOrder K] (items : List α) (f : α → K)
        (k : K), (∀ x ∈ items, f x = k) →
        binary_insertion_sort items f = items.reverse) ∧
    binary_insertion_sort [((1 : Nat), "a".data), (1, "b".data)]
        (fun p => p.1) = [(1, "b".data), (1, "a".data)] := by
  constructor
  · intro α K inst items f k h
    exact binary_insertion_sort_of_const_key items f k h
  · rfl

/-- C1 witness: the amended statement applied at the spec's own two-element
scenario. -/
theorem C1_witness :
    binary_insertion_sort [((1 : Nat), "a".data), (1, "b".data)]
        (fun p => p.1) =
      [((1 : Nat), "a".data), (1, "b".data)].reverse :=
  C1_theorem.1 (Nat × PyStr) Nat
    [((1 : Nat), "a".data), (1, "b".data)] (fun p => p.1) 1
    (by decide)

unseal bsLoop in
/-- C2: `_binary_insertion_sort` preserves length, permutes its input,
orders the output non-decreasingly by the key, and matches the spec's
concrete scenarios (including the empty and singleton edge cases). -/
theorem C2_theorem :
    (∀ (α K : Type) [_inst : LinearOrder K] (items : List α) (f : α → K),
        (binary_insertion_sort items f).length = items.length ∧
        List.Perm (binary_insertion_sort items f) items ∧
        (binary_insertion_sort items f).Pairwise (fun a b => f a ≤ f b)) ∧
    binary_insertion_sort [5, 2, 8, 1, 9, 3] (fun n : Nat => n) =
      [1, 2, 3, 5, 8, 9] ∧
    binary_insertion_sort [3, 1, 2, 1, 3, 2] (fun n : Nat => n) =
      [1, 1, 2, 2, 3, 3] ∧
    binary_insertion_sort ([] : List Nat) (fun n : Nat => n) = [] ∧
    ∀ n : Nat, binary_insertion_sort [n] (fun m : Nat => m) = [n] := by
  refine ⟨?_, by rfl, by rfl, by rfl, ?_⟩
  · intro α K inst items f
    exact ⟨binary_insertion_sort_length items f,
      binary_insertion_sort_perm items f,
      binary_insertion_sort_pairwise items f⟩
  · intro n
    exact binary_insertion_sort_of_strict [n] (fun m : Nat => m)
      (List.pairwise_singleton _ n)

unseal bsLoop in
/-- C3 counterexample: the output of `_binary_insertion_sort` on
`[(1,"a"), (1,"b")]` under the first-component key is an already-sorted
sequence (it is a sort output under that very key), yet sorting it again
with the same key changes it: the sort is not idempotent. -/
theorem C3_counterexample :
    binary_insertion_sort
        (binary_insertion_sort [((1 : Nat), "a".data), (1, "b".data)]
          (fun p => p.1))
        (fun p => p.1) ≠
      binary_insertion_sort [((1 : Nat), "a".data), (1, "b".data)]
        (fun p => p.1) := by
  decide

/-- C3 amended: sorting an already-sorted sequence returns it unchanged
provided the keys are pairwise distinct (strictly increasing);
equal-key runs of a sorted sequence are reversed by re-sorting, so
idempotence fails in general. -/
theorem C3_theorem :
    ∀ (α K : Type) [_inst : LinearOrder K] (items : List α) (f : α → K),
      items.Pairwise (fun a b => f a < f b) →
      binary_insertion_sort items f = items := by
  intro α K inst items f h
  exact binary_insertion_sort_of_strict items f h

/-- C3 witness: the amended statement applied at the strictly sorted
concrete input `[1,2,3]`. -/
theorem C3_witness :
    binary_insertion_sort [1, 2, 3] (fun n : Nat => n) = [1, 2, 3] :=
  C3_theorem Nat Nat [1, 2, 3] (fun n : Nat => n) (by decide)

/-- Record A(semester=1, dept="Z", hours=100) of the spec's three-record
scenario. -/
def disciplineA : Discipline :=
  ⟨"A".data, 1, 1, 100, "зачёт".data, "Z".data⟩

/-- Record B(semester=1, dept="A", hours=50) of the spec's three-record
scenario. -/
def disciplineB : Discipline :=
  ⟨"B".data, 1, 1, 50, "зачёт".data, "A".data⟩

/-- Record C(semester=2, dept="A", hours=200) of the spec's three-record
scenario. -/
def disciplineC : Discipline :=
  ⟨"C".data, 2, 1, 200, "зачёт".data, "A".data⟩

unseal bsLoop in
/-- C4: on every non-empty catalogue `get_full_list_sorted` returns a list
whose adjacent pairs are ordered by the composite key
(startSemester asc, department asc, hours desc), and the spec's
three-record catalogue yields exactly [B, A, C]. -/
theorem C4_theorem :
    (∀ (c : Curriculum) (l : List Discipline), c.disciplines ≠ [] →
        (get_full_list_sorted c).2 = .ok l →
        l.Chain' (fun a b => full_list_key a ≤ full_list_key b)) ∧
    (get_full_list_sorted ⟨[disciplineA, disciplineB, disciplineC]⟩).2 =
      .ok [disciplineB, disciplineA, disciplineC] := by
  constructor
  · intro c l hne hok
    unfold get_full_list_sorted at hok
    rw [if_neg hne] at hok
    simp only [Except.ok.injEq] at hok
    subst hok
    exact (binary_insertion_sort_pairwise c.disciplines full_list_key).chain'
  · rfl

/-- C4 witness: the general part applied at the spec's three-record
catalogue, with its hypotheses discharged there. -/
theorem C4_witness :
    List.Chain' (fun a b => full_list_key a ≤ full_list_key b)
      [disciplineB, disciplineA, disciplineC] :=
  C4_theorem.1 ⟨[disciplineA, disciplineB, disciplineC]⟩
    [disciplineB, disciplineA, disciplineC] (by simp) C4_theorem.2

/-- C5: each of the three report operations raises `EmptyDatabaseError`
exactly when the catalogue has zero records (so the error is distinct from
an empty result: on a non-empty catalogue `get_by_report_type` never
raises, even when its filter matches nothing). -/
theorem C5_theorem :
    (∀ c : Curriculum,
        (get_full_list_sorted c).2 = .error .emptyDatabase ↔
          c.disciplines = []) ∧
    (∀ (c : Curriculum) (rt : PyStr),
        (get_by_report_type c rt).2 = .error .emptyDatabase ↔
          c.disciplines = []) ∧
    (∀ (c : Curriculum) (mn mx : Int),
        (get_by_hours_range c mn mx).2 = .error .emptyDatabase ↔
          c.disciplines = []) ∧
    (∀ (c : Curriculum) (rt : PyStr), c.disciplines ≠ [] →
        ∀ e : CurriculumError, (get_by_report_type c rt).2 ≠ .error e) := by
  refine ⟨?_, ?_, ?_, ?_⟩
  · intro c
    simp only [get_full_list_sorted, apply_ite Prod.snd]
    split_ifs with h <;> simp [h]
  · intro c rt
    simp only [get_by_report_type, apply_ite Prod.snd]
    split_ifs with h1 h2 h3 <;> simp [h1]
  · intro c mn mx
    simp only [get_by_hours_range, apply_ite Prod.snd]
    split_ifs with h1 h2 h3 <;> simp [h1]
  · intro c rt hne e
    simp only [get_by_report_type, apply_ite Prod.snd]
    split_ifs with h1 h2 h3 <;> simp_all

/-- C5 witness: the distinctness part applied at a concrete non-empty
catalogue and a filter value matching nothing. -/
theorem C5_witness :
    (Curriculum.mk [disciplineA]).disciplines ≠ [] ∧
    ∀ e : CurriculumError,
      (get_by_report_type ⟨[disciplineA]⟩ "экзамен".data).2 ≠ .error e :=
  ⟨by simp, C5_theorem.2.2.2 ⟨[disciplineA]⟩ "экзамен".data (by simp)⟩

/-- C6: with swapped bounds (`min > max`) `get_by_hours_range` behaves
identically to the call with the bounds in order, and keeps exactly the
records whose hours lie in `[max, min]`. -/
theorem C6_theorem :
    ∀ (c : Curriculum) (mn mx : Int), c.disciplines ≠ [] → mn > mx →
      get_by_hours_range c mn mx = get_by_hours_range c mx mn ∧
      (∀ l, (get_by_hours_range c mn mx).2 = .ok l →
        ∀ d, d ∈ l ↔ d ∈ c.disciplines ∧ mx ≤ d.hours ∧ d.hours ≤ mn) := by
  intro c mn mx hne hgt
  have hswap : get_by_hours_range c mn mx = get_by_hours_range c mx mn := by
    unfold get_by_hours_range
    rw [if_pos hgt, if_neg (by omega : ¬ mx > mn)]
  refine ⟨hswap, ?_⟩
  intro l hok d
  simp only [get_by_hours_range] at hok
  rw [if_neg hne, if_pos hgt, apply_ite Prod.snd] at hok
  dsimp only at hok
  by_cases hnil :
      c.disciplines.filter (fun d => decide (mx ≤ d.hours ∧ d.hours ≤ mn)) = []
  · rw [if_pos hnil] at hok
    simp only [Except.ok.injEq] at hok
    subst hok
    simp only [List.not_mem_nil, false_iff]
    rintro ⟨hd, h1, h2⟩
    have hmem : d ∈ c.disciplines.filter
        (fun d => decide (mx ≤ d.hours ∧ d.hours ≤ mn)) :=
      List.mem_filter.mpr ⟨hd, by simp [h1, h2]⟩
    rw [hnil] at hmem
    simp at hmem
  · rw [if_neg hnil] at hok
    simp only [Except.ok.injEq] at hok
    subst hok
    rw [List.Perm.mem_iff (binary_insertion_sort_perm _ _)]
    simp [List.mem_filter, and_assoc]

/-- C6 witness: the theorem applied at a concrete one-record catalogue with
the spec's bounds 150 and 100. -/
theorem C6_witness :
    get_by_hours_range ⟨[disciplineA]⟩ 150 100 =
      get_by_hours_range ⟨[disciplineA]⟩ 100 150 ∧
    (∀ l, (get_by_hours_range ⟨[disciplineA]⟩ 150 100).2 = .ok l →
      ∀ d, d ∈ l ↔ d ∈ [disciplineA] ∧ 100 ≤ d.hours ∧ d.hours ≤ 150) :=
  C6_theorem ⟨[disciplineA]⟩ 150 100 (by simp) (by norm_num)

/-- C7: on a non-empty catalogue, a requested report type that does not
normalise (strip + lower) to one of the two canonical values yields the
empty sequence as a successful result, not the empty-catalogue error. -/
theorem C7_theorem :
    ∀ (c : Curriculum) (rt : PyStr), c.disciplines ≠ [] →
      pyLower (pyStrip rt) ∉ VALID_REPORT_TYPES →
      (get_by_report_type c rt).2 = .ok [] ∧
      (get_by_report_type c rt).2 ≠ .error .emptyDatabase := by
  intro c rt hne hbad
  unfold get_by_report_type
  rw [if_neg hne, if_pos hbad]
  exact ⟨rfl, by simp⟩

/-- C7 witness: the theorem applied at a concrete catalogue and the
unrecognised request `" Credit "`. -/
theorem C7_witness :
    (get_by_report_type ⟨[disciplineA]⟩ " Credit ".data).2 = .ok [] ∧
    (get_by_report_type ⟨[disciplineA]⟩ " Credit ".data).2 ≠
      .error .emptyDatabase :=
  C7_theorem ⟨[disciplineA]⟩ " Credit ".data (by simp) (by decide)

/-- C8: no report operation mutates the catalogue: in the state-passing
translation each of the three methods returns the catalogue exactly as it
was, whether it produces a result or raises (the returned sequence is a
fresh list built by the sort; object identity itself has no counterpart in
a value semantics). -/
theorem C8_theorem :
    ∀ (c : Curriculum) (rt : PyStr) (mn mx : Int),
      (get_full_list_sorted c).1 = c ∧
      (get_by_report_type c rt).1 = c ∧
      (get_by_hours_range c mn mx).1 = c := by
  intro c rt mn mx
  refine ⟨?_, ?_, ?_⟩
  · simp [get_full_list_sorted, apply_ite Prod.fst]
  · simp [get_by_report_type, apply_ite Prod.fst]
  · simp [get_by_hours_range, apply_ite Prod.fst]

/-- The field invariants of a validated course record, as stated by the
data-model section of the spec. -/
def validDiscipline (d : Discipline) : Prop :=
  d.name ≠ [] ∧ d.department ≠ [] ∧
  MIN_SEMESTER ≤ d.semester ∧ d.semester ≤ MAX_SEMESTER ∧
  1 ≤ d.duration ∧ d.duration ≤ MAX_SEMESTER - d.semester + 1 ∧
  MIN_HOURS ≤ d.hours ∧ d.hours ≤ MAX_HOURS ∧
  d.report_type ∈ VALID_REPORT_TYPES

/-- A name accepted by `_validate_name` is non-empty. -/
theorem validate_name_ok {n v : PyStr} (h : validate_name n = .ok v) :
    v ≠ [] := by
  simp only [validate_name] at h
  split at h
  · simp at h
  · next hc =>
      simp only [Except.ok.injEq] at h
      subst h
      exact hc

/-- A department accepted by `_validate_department` is non-empty. -/
theorem validate_department_ok {n v : PyStr}
    (h : validate_department n = .ok v) : v ≠ [] := by
  simp only [validate_department] at h
  split at h
  · simp at h
  · next hc =>
      simp only [Except.ok.injEq] at h
      subst h
      exact hc

/-- A semester accepted by `_validate_semester` lies in [1,8]. -/
theorem validate_semester_ok {s v : Int} (h : validate_semester s = .ok v) :
    MIN_SEMESTER ≤ v ∧ v ≤ MAX_SEMESTER := by
  simp only [validate_semester] at h
  split at h
  · next hc =>
      simp only [Except.ok.injEq] at h
      subst h
      exact hc
  · simp at h

/-- A duration accepted by `_validate_duration` lies in
[1, MAX_SEMESTER − semester + 1]. -/
theorem validate_duration_ok {du sem v : Int}
    (h : validate_duration du sem = .ok v) :
    1 ≤ v ∧ v ≤ MAX_SEMESTER - sem + 1 := by
  simp only [validate_duration] at h
  split at h
  · next hc =>
      simp only [Except.ok.injEq] at h
      subst h
      exact hc
  · simp at h

/-- Hours accepted by `_validate_hours` lie in [36,216]. -/
theorem validate_hours_ok {hr v : Int} (h : validate_hours hr = .ok v) :
    MIN_HOURS ≤ v ∧ v ≤ MAX_HOURS := by
  simp only [validate_hours] at h
  split at h
  · next hc =>
      simp only [Except.ok.injEq] at h
      subst h
      exact hc
  · simp at h

/-- A report type accepted by `_validate_report_type` is canonical. -/
theorem validate_report_type_ok {rt v : PyStr}
    (h : validate_report_type rt = .ok v) : v ∈ VALID_REPORT_TYPES := by
  simp only [validate_report_type] at h
  split at h
  · next hc =>
      simp only [Except.ok.injEq] at h
      subst h
      exact hc
  · simp at h

/-- Every record `Discipline.__init__` constructs satisfies the field
invariants. -/
theorem discipline_init_valid {n : PyStr} {s du h : Int} {rt dep : PyStr}
    {d : Discipline} (hd : discipline_init n s du h rt dep = .ok d) :
    validDiscipline d := by
  simp only [discipline_init, bind, Except.bind] at hd
  rcases h1 : validate_name n with e1 | v1 <;> rw [h1] at hd
  · simp at hd
  dsimp only at hd
  rcases h2 : validate_semester s with e2 | v2 <;> rw [h2] at hd
  · simp at hd
  dsimp only at hd
  rcases h3 : validate_duration du v2 with e3 | v3 <;> rw [h3] at hd
  · simp at hd
  dsimp only at hd
  rcases h4 : validate_hours h with e4 | v4 <;> rw [h4] at hd
  · simp at hd
  dsimp only at hd
  rcases h5 : validate_report_type rt with e5 | v5 <;> rw [h5] at hd
  · simp at hd
  dsimp only at hd
  rcases h6 : validate_department dep with e6 | v6 <;> rw [h6] at hd
  · simp at hd
  dsimp only at hd
  simp only [pure, Except.pure, Except.ok.injEq] at hd
  subst hd
  exact ⟨validate_name_ok h1, validate_department_ok h6,
    (validate_semester_ok h2).1, (validate_semester_ok h2).2,
    (validate_duration_ok h3).1, (validate_duration_ok h3).2,
    (validate_hours_ok h4).1, (validate_hours_ok h4).2,
    validate_report_type_ok h5⟩

/-- Every record the load loop puts into the catalogue satisfies the field
invariants. -/
theorem load_records_valid (data : List RawRecord) :
    ∀ d ∈ (load_records data).1, validDiscipline d := by
  unfold load_records
  suffices h : ∀ acc : List Discipline × List DisciplineError,
      (∀ d ∈ acc.1, validDiscipline d) →
      ∀ d ∈ (data.foldl
        (fun acc item =>
          match discipline_from_dict item with
          | .ok d => (acc.1 ++ [d], acc.2)
          | .error e => (acc.1, acc.2 ++ [e])) acc).1, validDiscipline d by
    exact h ([], []) (by intro d hd; cases hd)
  induction data with
  | nil => intro acc hacc; exact hacc
  | cons item rest ih =>
    intro acc hacc
    simp only [List.foldl_cons]
    apply ih
    rcases hfd : discipline_from_dict item with e | d0
    · simpa [hfd] using hacc
    · simp only [hfd]
      intro d hd
      rcases List.mem_append.mp hd with hd | hd
      · exact hacc d hd
      · rcases List.mem_singleton.mp hd with rfl
        exact discipline_init_valid hfd

/-- C9: every successfully constructed course record — and hence every
record the load loop inserts into the catalogue — satisfies all field
invariants (non-empty name/department, semester in [1,8], duration in
[1, 8 − semester + 1], hours in [36,216], canonical report type);
any other input makes construction return a typed validation error, so no
invalid record enters the catalogue. -/
theorem C9_theorem :
    (∀ (n : PyStr) (s du h : Int) (rt dep : PyStr) (d : Discipline),
        discipline_init n s du h rt dep = .ok d → validDiscipline d) ∧
    (∀ (data : List RawRecord) (d : Discipline),
        d ∈ (load_records data).1 → validDiscipline d) ∧
    (∀ (n : PyStr) (s du h : Int) (rt dep : PyStr),
        (∃ d, discipline_init n s du h rt dep = .ok d) ∨
        (∃ e, discipline_init n s du h rt dep = .error e)) := by
  refine ⟨?_, ?_, ?_⟩
  · intro n s du h rt dep d hd
    exact discipline_init_valid hd
  · intro data d hd
    exact load_records_valid data d hd
  · intro n s du h rt dep
    rcases hd : discipline_init n s du h rt dep with e | d
    · exact Or.inr ⟨e, rfl⟩
    · exact Or.inl ⟨d, rfl⟩

/-- C9 witness: the construction part applied at a concrete valid raw
record. -/
theorem C9_witness :
    validDiscipline
      ⟨"Математика".data, 1, 2, 108, "экзамен".data, "Физмат".data⟩ :=
  C9_theorem.1 "Математика".data 1 2 108 "экзамен".data "Физмат".data
    ⟨"Математика".data, 1, 2, 108, "экзамен".data, "Физмат".data⟩ rfl

/-- `sorted(set(...))` produces a strictly ascending list (sorted, no
duplicates). -/
theorem pySortedSet_sorted_lt (l : List PyStr) :
    (pySortedSet l).Pairwise (· < ·) := by
  have hsorted : (pySortedSet l).Pairwise (· ≤ ·) :=
    List.sorted_mergeSort' l.dedup
  have hperm : List.Perm (pySortedSet l) l.dedup :=
    List.mergeSort_perm l.dedup _
  have hnodup : (pySortedSet l).Pairwise (· ≠ ·) :=
    hperm.nodup_iff.mpr l.nodup_dedup
  exact (hsorted.and hnodup).imp
    (fun hab => lt_of_le_of_ne hab.1 hab.2)

/-- C10: the auxiliary queries never raise on an empty catalogue — they
return `0` or `[]` — and the unique-department and unique-report-type
lists are strictly ascending (sorted, duplicate-free) while the name list
is ascending (names may repeat). -/
theorem C10_theorem :
    get_disciplines_count ⟨[]⟩ = 0 ∧
    get_unique_departments ⟨[]⟩ = [] ∧
    get_unique_report_types ⟨[]⟩ = [] ∧
    get_all_discipline_names ⟨[]⟩ = [] ∧
    (∀ c : Curriculum, (get_unique_departments c).Pairwise (· < ·)) ∧
    (∀ c : Curriculum, (get_unique_report_types c).Pairwise (· < ·)) ∧
    (∀ c : Curriculum, (get_all_discipline_names c).Pairwise (· ≤ ·)) := by
  refine ⟨rfl, ?_, ?_, ?_, ?_, ?_, ?_⟩
  · simp [get_unique_departments, pySortedSet]
  · simp [get_unique_report_types, pySortedSet]
  · simp [get_all_discipline_names]
  · intro c
    exact pySortedSet_sorted_lt _
  · intro c
    exact pySortedSet_sorted_lt _
  · intro c
    exact List.sorted_mergeSort' _
